import Mathlib

/-!
Shallow embedding of the blkchnkr userspace block-device server.

Each definition mirrors one function of the Rust source (`src/`), with
machine integers modelled as `Nat`/`Int` and wrap-around made explicit as
`% 2^32` / `% 2^64` exactly where the source performs a truncating cast or
can overflow.  The ublk/libc ABI constants live in a generated
`bindings.rs` that is not part of the source tree; they are modelled from
the spec and the Linux ABI it references, and are marked as such.
-/

namespace Blkchnkr

/-- 2^32, the modulus of Rust `u32` arithmetic. -/
def u32Mod : Nat := 2 ^ 32

/-- 2^64, the modulus of Rust `u64` arithmetic. -/
def u64Mod : Nat := 2 ^ 64

/-- Largest `u8` value. -/
def u8Max : Nat := 2 ^ 8 - 1

/-- Largest `u16` value. -/
def u16Max : Nat := 2 ^ 16 - 1

/-- Largest `u32` value. -/
def u32Max : Nat := 2 ^ 32 - 1

/-- Largest `u64` value. -/
def u64Max : Nat := 2 ^ 64 - 1

/-! ### ublk / libc ABI constants

Modelled from the spec: the repository's `bindings.rs` (bindgen output for
the kernel's `ublk_cmd.h`) and the `libc` crate are not under `src/`; the
spec describes the op codes (`READ`, `WRITE`, `FLUSH`, `WRITE_ZEROES`),
the flags `FUA` and `NOUNMAP` living in the high bytes of `op_flags`
("low byte = op code, high bytes = flags"), and `ABORT = -ENODEV`.  The
numeric values follow the Linux ublk/libc ABI the spec references. -/

/-- Modelled from the spec: ublk op code for READ (kernel ABI value 0). -/
def UBLK_IO_OP_READ : Nat := 0

/-- Modelled from the spec: ublk op code for WRITE (kernel ABI value 1). -/
def UBLK_IO_OP_WRITE : Nat := 1

/-- Modelled from the spec: ublk op code for FLUSH (kernel ABI value 2). -/
def UBLK_IO_OP_FLUSH : Nat := 2

/-- Modelled from the spec: ublk op code for WRITE_ZEROES (kernel ABI value 5). -/
def UBLK_IO_OP_WRITE_ZEROES : Nat := 5

/-- Modelled from the spec: the FUA flag, a single bit in the high bytes of
`op_flags` (kernel ABI bit 13). -/
def UBLK_IO_F_FUA : Nat := 2 ^ 13

/-- Modelled from the spec: the NOUNMAP flag, a single bit in the high bytes
of `op_flags` (kernel ABI bit 15). -/
def UBLK_IO_F_NOUNMAP : Nat := 2 ^ 15

/-- Modelled from the spec: `ENODEV` (libc value 19). -/
def ENODEV : Int := 19

/-- Modelled from the spec: `EINTR` (libc value 4). -/
def EINTR : Int := 4

/-- Modelled from the spec: libc `EIO` (value 5). -/
def EIO_errno : Int := 5

/-- `UBLK_IO_RES_ABORT = -libc::ENODEV` (src/bindings_ext.rs). -/
def UBLK_IO_RES_ABORT : Int := -ENODEV

/-- Modelled from the spec: `FALLOC_FL_KEEP_SIZE` (libc value 0x01). -/
def FALLOC_FL_KEEP_SIZE : Nat := 1

/-- Modelled from the spec: `FALLOC_FL_PUNCH_HOLE` (libc value 0x02). -/
def FALLOC_FL_PUNCH_HOLE : Nat := 2

/-- Modelled from the spec: `FALLOC_FL_ZERO_RANGE` (libc value 0x10). -/
def FALLOC_FL_ZERO_RANGE : Nat := 16

/-- Modelled from the spec: `RWF_DSYNC` (libc value 0x02). -/
def RWF_DSYNC : Int := 2

/-! ### I/O descriptor (`ublksrv_io_desc`, driver-populated)

`op_flags : u32`, `start_sector : u64`, `nr_sectors : u32` (the `addr`
field is unused by this server and omitted).  Accessors from
src/bindings_ext.rs. -/

structure UblksrvIoDesc where
  op_flags : Nat
  start_sector : Nat
  nr_sectors : Nat
  deriving DecidableEq, Repr

/-- `fn op(&self) -> u32 { self.op_flags & 0xff }` (src/bindings_ext.rs). -/
def UblksrvIoDesc.op (d : UblksrvIoDesc) : Nat := d.op_flags % 256

/-- `fn flags(&self) -> u32 { self.op_flags >> 8 }` (src/bindings_ext.rs). -/
def UblksrvIoDesc.descFlags (d : UblksrvIoDesc) : Nat := d.op_flags / 256

/-! ### The request router (src/parts.rs) -/

/-- `struct Part` (src/parts.rs): `file_num : u32`, `nr_sectors : u32`,
`start_sector : u64`, `buf_offset : u32`. -/
structure Part where
  file_num : Nat
  nr_sectors : Nat
  start_sector : Nat
  buf_offset : Nat
  deriving DecidableEq, Repr

/-- One step of `<Parts as Iterator>::next` (src/parts.rs).  State is
`(chunk_size, start_sector, nr_sectors, buf_offset)` in sectors; the
`as u32` casts of `left_in_chunk` and `file_num` and the `u64`/`u32`
wrap-around of the state updates are explicit.  `fuel` bounds the
recursion; `partsList` supplies `fuel = nr_sectors`, which suffices
because every non-degenerate step consumes at least one sector.  When the
`as u32` cast truncates `left_in_chunk` to `0` (only possible for
`chunk_size ≥ 2^32`) the Rust iterator yields zero-length parts forever;
we stop the stream there to stay total. -/
def partsGo (chunk_size : Nat) :
    Nat → Nat → Nat → Nat → List Part
  | 0, _, _, _ => []
  | _, _, 0, _ => []
  | fuel + 1, start_sector, nr_sectors, buf_offset =>
    let start_within_chunk := start_sector % chunk_size
    let left_in_chunk := (chunk_size - start_within_chunk) % u32Mod
    let to_read_from_chunk := min left_in_chunk nr_sectors
    if to_read_from_chunk = 0 then []
    else
      { file_num := (start_sector / chunk_size) % u32Mod,
        start_sector := start_within_chunk,
        nr_sectors := to_read_from_chunk,
        buf_offset := buf_offset } ::
      partsGo chunk_size fuel
        ((start_sector + to_read_from_chunk) % u64Mod)
        (nr_sectors - to_read_from_chunk)
        ((buf_offset + to_read_from_chunk) % u32Mod)

/-- The full (finite) part sequence emitted for a request, in emission
order. -/
def partsList (chunk_size start_sector nr_sectors buf_offset : Nat) :
    List Part :=
  partsGo chunk_size nr_sectors start_sector nr_sectors buf_offset

/-- `parts_for_event` (src/parts.rs): `chunk_size` (given in bytes by the
config) is converted to sectors with `config.chunk_size / 512`, and the
iterator starts at the descriptor's `start_sector`/`nr_sectors` with
`buf_offset = 0`. -/
def parts_for_event (config_chunk_size : Nat) (desc : UblksrvIoDesc) :
    List Part :=
  partsList (config_chunk_size / 512) desc.start_sector desc.nr_sectors 0

/-- Sum of the `nr_sectors` fields of a part list. -/
def sumNrSectors (ps : List Part) : Nat :=
  (ps.map Part.nr_sectors).sum

/-- The buffer offsets form the running sum of the emitted sector counts
starting from `b`: the head's `buf_offset` is `b` and each subsequent
part's `buf_offset` is its predecessor's `buf_offset` plus the
predecessor's `nr_sectors`. -/
def bufChained (b : Nat) : List Part → Prop
  | [] => True
  | p :: ps => p.buf_offset = b ∧ bufChained (b + p.nr_sectors) ps

instance (b : Nat) (ps : List Part) : Decidable (bufChained b ps) := by
  induction ps generalizing b with
  | nil => exact .isTrue trivial
  | cons p ps ih =>
    have := ih
    unfold bufChained
    exact instDecidableAnd

/-- The parts track the running absolute sector position: starting from
position `s` (a `u64`), each part is emitted at `s % chunk` within chunk
`(s / chunk) % 2^32` and advances the position by its `nr_sectors`
(mod `2^64`). -/
def positionChained (chunk : Nat) (s : Nat) : List Part → Prop
  | [] => True
  | p :: ps =>
    p.file_num = (s / chunk) % u32Mod ∧
    p.start_sector = s % chunk ∧
    positionChained chunk ((s + p.nr_sectors) % u64Mod) ps

instance (chunk s : Nat) (ps : List Part) :
    Decidable (positionChained chunk s ps) := by
  induction ps generalizing s with
  | nil => exact .isTrue trivial
  | cons p ps ih =>
    have := ih
    unfold positionChained
    exact instDecidableAnd

/-! ### Read/write submission entries and the retry loop (src/sqes.rs,
src/task.rs `process_rw_request`) -/

/-- Wrapping `u32` subtraction (`a - b` in Rust release mode). -/
def u32sub (a b : Nat) : Nat := (a % u32Mod + (u32Mod - b % u32Mod)) % u32Mod

/-- Interpret a `u32` bit pattern as an `i32` (Rust `as i32`). -/
def i32OfU32 (n : Nat) : Int :=
  if n % u32Mod < 2 ^ 31 then Int.ofNat (n % u32Mod)
  else Int.ofNat (n % u32Mod) - Int.ofNat u32Mod

/-- `fua_flags` (src/sqes.rs): `RWF_DSYNC` when the descriptor's `op_flags`
carry `UBLK_IO_F_FUA`, else `0`. -/
def fua_flags (desc : UblksrvIoDesc) : Int :=
  if desc.op_flags &&& UBLK_IO_F_FUA ≠ 0 then RWF_DSYNC else 0

/-- The fields of the read/write submission entry relevant to routing:
fixed-file index, byte length, file byte offset, and `rw_flags`. -/
structure RwSqe where
  fd : Nat
  len : Nat
  fileOffset : Nat
  rw_flags : Int
  deriving DecidableEq, Repr

/-- `create_rw_sqe_with_offset` (src/sqes.rs): length
`(part.nr_sectors << 9) - curr_offset` in `u32` arithmetic, file offset
`(part.start_sector << 9) + curr_offset` in `u64` arithmetic; a read
carries no `rw_flags`, a write carries `fua_flags(desc)`. -/
def create_rw_sqe_with_offset (op file_index : Nat) (part : Part)
    (desc : UblksrvIoDesc) (curr_offset : Nat) : RwSqe :=
  { fd := file_index,
    len := u32sub ((part.nr_sectors <<< 9) % u32Mod) curr_offset,
    fileOffset := ((part.start_sector <<< 9) % u64Mod + curr_offset) % u64Mod,
    rw_flags := if op = UBLK_IO_OP_READ then 0 else fua_flags desc }

/-- `create_rw_sqe` (src/sqes.rs) is the same entry with `curr_offset = 0`. -/
def create_rw_sqe (op file_index : Nat) (part : Part)
    (desc : UblksrvIoDesc) : RwSqe :=
  create_rw_sqe_with_offset op file_index part desc 0

/-- Outcome of draining one part's completions in `process_rw_request`
(src/task.rs): the part completed fully, returned an error early, or is
still awaiting a completion.  `resubmits` records, in order, the
`curr_offset` argument of every resubmitted `create_rw_sqe_with_offset`. -/
inductive DrainOut where
  | full (resubmits : List Nat)
  | fail (e : Int) (resubmits : List Nat)
  | pending (current : Nat) (resubmits : List Nat)
  deriving DecidableEq, Repr

/-- Record one resubmission (with the given `curr_offset`) in front of a
drain outcome's trace. -/
def DrainOut.consResubmit (c : Nat) : DrainOut → DrainOut
  | .full rs => .full (c :: rs)
  | .fail e rs => .fail e (c :: rs)
  | .pending cur rs => .pending cur (c :: rs)

/-- Whether the drain completed the part fully. -/
def DrainOut.isFull : DrainOut → Bool
  | .full _ => true
  | _ => false

/-- The inner completion loop of `Task::process_rw_request`
(src/task.rs:174-200) for one part, over the list of completion results
its waiter yields.  `total = (part.nr_sectors << 9) % 2^32` and `current`
is the accumulated byte count (both `u32`).  A positive result is added to
`current`; reaching `total` ends the part.  A negative result other than
`-EINTR` is returned immediately.  Otherwise (`-EINTR`, a short positive
result, or the result `0` that only a debug assertion rules out) the
operation is resubmitted with `curr_offset = current`. -/
def drainRwPart (total : Nat) : Nat → List Int → DrainOut
  | current, [] => .pending current []
  | current, r :: rest =>
    if 0 < r then
      let current' := (current + r.toNat) % u32Mod
      if current' = total then .full []
      else .consResubmit current' (drainRwPart total current' rest)
    else if r < 0 ∧ r ≠ -EINTR then .fail r []
    else .consResubmit current (drainRwPart total current rest)

/-- The outer loop of `Task::process_rw_request` (src/task.rs:170-207):
parts are awaited in emission order; a fully drained part adds its byte
count to `result_all` (`u32`); a failed part's error is returned as the
request's result.  `oracles` lists, per part, the completion results its
waiter yields; `none` means some waiter is still pending (no result yet).
On success the accumulated `u32` is returned `as i32`. -/
def processRwGo : List Part → List (List Int) → Nat → Option Int
  | [], _, acc => some (i32OfU32 acc)
  | _ :: _, [], _ => none
  | p :: ps, o :: os, acc =>
    match drainRwPart ((p.nr_sectors <<< 9) % u32Mod) 0 o with
    | .full _ => processRwGo ps os ((acc + (p.nr_sectors <<< 9) % u32Mod) % u32Mod)
    | .fail e _ => some e
    | .pending _ _ => none

/-- `Task::process_rw_request` (src/task.rs): split the descriptor into
parts and drain them in order. -/
def process_rw_request (config_chunk_size : Nat) (desc : UblksrvIoDesc)
    (oracles : List (List Int)) : Option Int :=
  processRwGo (parts_for_event config_chunk_size desc) oracles 0

/-! ### Flush and write-zeroes (src/sqes.rs, src/task.rs) -/

/-- The fields of a fallocate submission entry (src/sqes.rs
`create_write_zeroes_sqe`). -/
structure FallocateSqe where
  fd : Nat
  len : Nat
  fileOffset : Nat
  mode : Nat
  deriving DecidableEq, Repr

/-- `create_write_zeroes_sqe` (src/sqes.rs): mode
`KEEP_SIZE | ZERO_RANGE` when `desc.flags() & UBLK_IO_F_NOUNMAP > 0`
(note: `flags()` is `op_flags >> 8`), else `KEEP_SIZE | PUNCH_HOLE`;
length `(part.nr_sectors as u64) << 9` at offset `part.start_sector << 9`. -/
def create_write_zeroes_sqe (file_index : Nat) (part : Part)
    (desc : UblksrvIoDesc) : FallocateSqe :=
  { fd := file_index,
    len := part.nr_sectors <<< 9,
    fileOffset := (part.start_sector <<< 9) % u64Mod,
    mode :=
      if desc.descFlags &&& UBLK_IO_F_NOUNMAP > 0 then
        FALLOC_FL_KEEP_SIZE ||| FALLOC_FL_ZERO_RANGE
      else
        FALLOC_FL_KEEP_SIZE ||| FALLOC_FL_PUNCH_HOLE }

/-- Outcome of the flush / write-zeroes per-part retry loop: success,
early error, or still awaiting; `resubmits` counts resubmissions. -/
inductive RetryOut where
  | ok (resubmits : Nat)
  | fail (e : Int) (resubmits : Nat)
  | pending (resubmits : Nat)
  deriving DecidableEq, Repr

/-- The per-part completion loop shared (in shape) by
`Task::process_flush_request` (src/task.rs:235-249) and
`Task::process_write_zeroes_request` (src/task.rs:280-295): a result of
`0` ends the part; a negative result other than `-EINTR` is returned
immediately; anything else resubmits the same operation. -/
def drainRetryLoop : List Int → RetryOut
  | [] => .pending 0
  | r :: rest =>
    if r = 0 then .ok 0
    else if r < 0 ∧ r ≠ -EINTR then .fail r 0
    else
      match drainRetryLoop rest with
      | .ok n => .ok (n + 1)
      | .fail e n => .fail e (n + 1)
      | .pending n => .pending (n + 1)

/-- Outer loop shared by flush and write-zeroes: parts in emission order,
result `0` when all parts succeed, the first error otherwise. -/
def retryAllGo : List Part → List (List Int) → Option Int
  | [], _ => some 0
  | _ :: _, [] => none
  | _ :: ps, o :: os =>
    match drainRetryLoop o with
    | .ok _ => retryAllGo ps os
    | .fail e _ => some e
    | .pending _ => none

/-- `Task::process_flush_request` (src/task.rs): first component is the
list of chunk files looked up or created (`open_or_create_cached` once per
part, in order), second the request's result. -/
def process_flush_request (config_chunk_size : Nat) (desc : UblksrvIoDesc)
    (oracles : List (List Int)) : List Nat × Option Int :=
  let parts := parts_for_event config_chunk_size desc
  (parts.map Part.file_num, retryAllGo parts oracles)

/-- `Task::process_write_zeroes_request` (src/task.rs): the chunk files
opened, the fallocate entries submitted (one per part, through the
worker's file-index table `fidx`), and the request's result. -/
def process_write_zeroes_request (config_chunk_size : Nat)
    (desc : UblksrvIoDesc) (oracles : List (List Int)) (fidx : Nat → Nat) :
    List Nat × List FallocateSqe × Option Int :=
  let parts := parts_for_event config_chunk_size desc
  (parts.map Part.file_num,
   parts.map (fun p => create_write_zeroes_sqe (fidx p.file_num) p desc),
   retryAllGo parts oracles)

/-! ### The per-tag task loop (src/task.rs `Task::run`,
`Task::process_request`) -/

/-- `Task::process_request` (src/task.rs:118-142): dispatch on
`desc.op()`.  READ and WRITE go through `process_rw_request`, FLUSH and
WRITE_ZEROES through their handlers; any other op is an `Err`
(`bail!`). -/
def process_request (config_chunk_size : Nat) (desc : UblksrvIoDesc)
    (oracles : List (List Int)) (fidx : Nat → Nat) :
    Except Unit (Option Int) :=
  if desc.op = UBLK_IO_OP_READ ∨ desc.op = UBLK_IO_OP_WRITE then
    .ok (process_rw_request config_chunk_size desc oracles)
  else if desc.op = UBLK_IO_OP_FLUSH then
    .ok (process_flush_request config_chunk_size desc oracles).2
  else if desc.op = UBLK_IO_OP_WRITE_ZEROES then
    .ok (process_write_zeroes_request config_chunk_size desc oracles fidx).2.2
  else .error ()

/-- The value committed through COMMIT_AND_FETCH for one iteration of
`Task::run` (src/task.rs:79-94): the handler's result on `Ok`, `-EIO` on
`Err`; `none` when the handler is still awaiting completions. -/
def commit_value (p : Except Unit (Option Int)) : Option Int :=
  match p with
  | .ok r => r
  | .error _ => some (-EIO_errno)

/-- Result of `Task::run` (src/task.rs:58-111) as far as the modelled
completion streams reach. -/
inductive RunOutcome where
  | cleanBeforeWork
  | initError (e : Int)
  | cleanShutdown (iterations : Nat)
  | running (iterations : Nat)
  deriving DecidableEq, Repr

/-- The commit-and-fetch loop of `Task::run` (src/task.rs:73-110) over the
list of COMMIT_AND_FETCH completion values the driver delivers: `ABORT`
ends the task cleanly after the current iteration; any other value —
including a negative one, which is only logged — continues the loop.
`iterations` counts completed loop iterations. -/
def taskRunGo : List Int → Nat → RunOutcome
  | [], n => .running n
  | c :: rest, n =>
    if c = UBLK_IO_RES_ABORT then .cleanShutdown (n + 1)
    else taskRunGo rest (n + 1)

/-- `Task::run` (src/task.rs:58-111): the initial FETCH completion
`initialFetch` ends the task cleanly on `ABORT`, fatally on any other
negative value, and otherwise enters the commit-and-fetch loop.  The
committed values themselves do not influence loop control, so only the
driver-delivered completion values appear here. -/
def task_run (initialFetch : Int) (commits : List Int) : RunOutcome :=
  if initialFetch < 0 then
    if initialFetch = UBLK_IO_RES_ABORT then .cleanBeforeWork
    else .initError initialFetch
  else taskRunGo commits 0

/-! ### The per-worker file-index table (src/task.rs
`Task::open_or_create_cached`) -/

/-- Lookup in the file-index table, modelled as an association list in
insertion order (`HashMap::get`). -/
def lookupChunk : List (Nat × Nat) → Nat → Option Nat
  | [], _ => none
  | (k, v) :: rest, key => if k = key then some v else lookupChunk rest key

/-- `Task::open_or_create_cached` (src/task.rs:305-321): a cached
`chunk_index` returns its slot unchanged; otherwise the chunk file is
opened/created, registered at the fresh dense slot `len + 1`, and the
entry is inserted. -/
def open_or_create_cached (table : List (Nat × Nat)) (chunk_index : Nat) :
    Nat × List (Nat × Nat) :=
  match lookupChunk table chunk_index with
  | some idx => (idx, table)
  | none =>
    let idx := table.length + 1
    (idx, table ++ [(chunk_index, idx)])

/-- The table after a sequence of `open_or_create_cached` calls starting
from the worker's empty table. -/
def applyOpens (calls : List Nat) : List (Nat × Nat) :=
  calls.foldl (fun t c => (open_or_create_cached t c).2) []

/-- Slots are dense from 1: the slot column is exactly `[1, …, n]`. -/
def slotsDense (t : List (Nat × Nat)) : Prop :=
  t.map Prod.snd = List.range' 1 t.length

/-- Distinct `chunk_index` keys (injectivity of the table as a map). -/
def keysNodup (t : List (Nat × Nat)) : Prop :=
  (t.map Prod.fst).Nodup

/-! ### Config persistence (src/config.rs) and init/expand sizing
(src/cli.rs, src/config.rs) -/

/-- The persisted configuration (src/config.rs `Config`); the
`repository` path and the on-demand `queue_limits` play no role in
serialisation and are omitted. -/
structure Config where
  version : Nat
  dev_id : Option Nat
  size : Nat
  chunk_size : Nat
  threads : Option Nat
  fsuid : Option Nat
  fsgid : Option Nat
  direct_io : Option Bool
  deriving DecidableEq, Repr

/-- `name SP value NL` (the `push` helper of `Config::to_string`). -/
def pushLine (name value : List Char) : List Char :=
  name ++ ' ' :: value ++ ['\n']

/-- Decimal digits of a number (`u64: ToString`). -/
def natValue (n : Nat) : List Char := Nat.toDigits 10 n

/-- `push_opt`: nothing for `None`, a full line for `Some`. -/
def optNatLine (name : List Char) : Option Nat → List Char
  | none => []
  | some v => pushLine name (natValue v)

/-- `bool: ToString`. -/
def boolValue : Bool → List Char
  | true => "true".data
  | false => "false".data

/-- `Config::to_string` (src/config.rs:172-205): `version 1`, then
optional `dev-id`, `size`, `chunk-size`, optional `fsuid`, `fsgid`,
`direct-io`.  The source never writes a `threads` line. -/
def configToStringChars (c : Config) : List Char :=
  pushLine "version".data (natValue 1) ++
  optNatLine "dev-id".data c.dev_id ++
  pushLine "size".data (natValue c.size) ++
  pushLine "chunk-size".data (natValue c.chunk_size) ++
  optNatLine "fsuid".data c.fsuid ++
  optNatLine "fsgid".data c.fsgid ++
  (match c.direct_io with
   | none => []
   | some b => pushLine "direct-io".data (boolValue b))

/-- `Config::to_string` as a `String`. -/
def configToString (c : Config) : String := ⟨configToStringChars c⟩

/-- Digit-folding core of integer `from_str`. -/
def charsToNatGo (acc : Nat) : List Char → Option Nat
  | [] => some acc
  | c :: cs =>
    if c.isDigit then charsToNatGo (acc * 10 + (c.toNat - 48)) cs else none

/-- Unsigned-integer `from_str` over the characters of the value (digits
only; empty input is an error).  Rust additionally accepts a leading `+`,
which `to_string` never produces and which no claim touches. -/
def charsToNat : List Char → Option Nat
  | [] => none
  | l => charsToNatGo 0 l

/-- `parse_num::<T>` (src/config.rs:282-288): numeric parse failing, like
Rust's typed `from_str`, on values beyond the target type's maximum. -/
def parse_num (max : Nat) (l : List Char) : Option Nat :=
  match charsToNat l with
  | some n => if n ≤ max then some n else none
  | none => none

/-- `parse_bool` (src/config.rs:290-296): accepts `1|on|true` and
`0|off|false`. -/
def parse_bool (l : List Char) : Option Bool :=
  if l = "1".data ∨ l = "on".data ∨ l = "true".data then some true
  else if l = "0".data ∨ l = "off".data ∨ l = "false".data then some false
  else none

/-- Split on a separator character, keeping empty pieces (Rust
`str::split`). -/
def splitOnCharGo (sep : Char) : List Char → List Char → List (List Char)
  | [], acc => [acc.reverse]
  | c :: cs, acc =>
    if c = sep then acc.reverse :: splitOnCharGo sep cs []
    else splitOnCharGo sep cs (c :: acc)

/-- Split on a separator character. -/
def splitOnChar (sep : Char) (l : List Char) : List (List Char) :=
  splitOnCharGo sep l []

/-- Rust `str::lines`: split on `\n`, without a trailing empty line.  (The
source's config text never contains `\r`.) -/
def rustLines (l : List Char) : List (List Char) :=
  let parts := splitOnChar '\n' l
  if parts.getLast? = some [] then parts.dropLast else parts

/-- Rust `str::splitn(2, " ")` followed by the two `next()` calls of
`read_config_file`: the text before the first space and everything after
it; `none` when the line has no space (missing setting value). -/
def splitn2Go (acc : List Char) : List Char → Option (List Char × List Char)
  | [] => none
  | c :: cs =>
    if c = ' ' then some (acc.reverse, cs) else splitn2Go (c :: acc) cs

/-- Split a config line into setting name and value. -/
def splitn2 (l : List Char) : Option (List Char × List Char) :=
  splitn2Go [] l

/-- The accumulator of `read_config_file`'s line loop. -/
structure RawConfig where
  version : Option Nat
  dev_id : Option Nat
  size : Option Nat
  chunk_size : Option Nat
  threads : Option Nat
  fsuid : Option Nat
  fsgid : Option Nat
  direct_io : Option Bool
  deriving DecidableEq, Repr

/-- One line of `read_config_file`'s loop (src/config.rs:231-261):
`#` lines are skipped; otherwise the name selects the setting (with the
target type's range) and an unknown name is an error. -/
def readLine (acc : RawConfig) (line : List Char) : Option RawConfig :=
  match line with
  | '#' :: _ => some acc
  | _ =>
    match splitn2 line with
    | none => none
    | some (name, value) =>
      if name = "version".data then
        (parse_num u8Max value).map fun v => { acc with version := some v }
      else if name = "dev-id".data then
        (parse_num u32Max value).map fun v => { acc with dev_id := some v }
      else if name = "size".data then
        (parse_num u64Max value).map fun v => { acc with size := some v }
      else if name = "chunk-size".data then
        (parse_num u64Max value).map fun v => { acc with chunk_size := some v }
      else if name = "threads".data then
        (parse_num u16Max value).map fun v => { acc with threads := some v }
      else if name = "fsuid".data then
        (parse_num u32Max value).map fun v => { acc with fsuid := some v }
      else if name = "fsgid".data then
        (parse_num u32Max value).map fun v => { acc with fsgid := some v }
      else if name = "direct-io".data then
        (parse_bool value).map fun b => { acc with direct_io := some b }
      else none

/-- Fold `readLine` over the lines, stopping at the first error. -/
def readLinesGo (acc : RawConfig) : List (List Char) → Option RawConfig
  | [] => some acc
  | line :: rest =>
    match readLine acc line with
    | none => none
    | some acc' => readLinesGo acc' rest

/-- `read_config_file` (src/config.rs:207-280) on the file's text:
`version`, `size` and `chunk-size` are required, everything else
optional. -/
def read_config_file (s : String) : Option Config :=
  match readLinesGo ⟨none, none, none, none, none, none, none, none⟩
      (rustLines s.data) with
  | none => none
  | some raw =>
    match raw.version, raw.size, raw.chunk_size with
    | some v, some sz, some ck =>
      some ⟨v, raw.dev_id, sz, ck, raw.threads, raw.fsuid, raw.fsgid,
        raw.direct_io⟩
    | _, _, _ => none

/-- Rust `u64::next_multiple_of` (no overflow check). -/
def next_multiple_of (a m : Nat) : Nat :=
  if a % m = 0 then a else a + (m - a % m)

/-- Rust `u64::checked_next_multiple_of`: `None` when `m = 0` or the
result does not fit in a `u64`. -/
def checked_next_multiple_of (a m : Nat) : Option Nat :=
  if m = 0 then none
  else if next_multiple_of a m ≤ u64Max then some (next_multiple_of a m)
  else none

/-- The size logic of `parse_init` (src/cli.rs:174-209): reject
`size < 256 MiB` and `chunk_size < 32 MiB`, round `chunk_size` up to a
multiple of 4096, then round `size` up to a multiple of the rounded chunk
size; returns `(size, chunk_size)` as persisted. -/
def parse_init_sizes (size chunk_size : Nat) : Option (Nat × Nat) :=
  if size < 256 * (1024 * 1024) then none
  else if chunk_size < 32 * (1024 * 1024) then none
  else
    match checked_next_multiple_of chunk_size 4096 with
    | none => none
    | some ck =>
      match checked_next_multiple_of size ck with
      | none => none
      | some sz => some (sz, ck)

/-- `Config::expand_size_by_bytes` (src/config.rs:80-90):
`size.checked_add(bytes)` then `checked_next_multiple_of(chunk_size)`;
`none` is the error case, in which `commands/expand.rs` returns before
`config.save()` — no size is persisted. -/
def expand_size_by_bytes (size chunk_size bytes : Nat) : Option Nat :=
  if size + bytes ≤ u64Max then
    checked_next_multiple_of (size + bytes) chunk_size
  else none

/-! ## Theorems -/

theorem partsGo_nil_of_zero (chunk fuel start buf : Nat) :
    partsGo chunk fuel start 0 buf = [] := by
  cases fuel <;> simp [partsGo]

theorem partsGo_sum (chunk : Nat) (hc : 0 < chunk) (hc32 : chunk < u32Mod) :
    ∀ fuel start nr buf, nr ≤ fuel →
      sumNrSectors (partsGo chunk fuel start nr buf) = nr := by
  intro fuel
  induction fuel with
  | zero =>
    intro start nr buf h
    have : nr = 0 := Nat.le_zero.mp h
    subst this
    simp [partsGo, sumNrSectors]
  | succ n ih =>
    intro start nr buf h
    match nr with
    | 0 => simp [partsGo, sumNrSectors]
    | m + 1 =>
      have hsw : start % chunk < chunk := Nat.mod_lt _ hc
      have hleft_eq : (chunk - start % chunk) % u32Mod = chunk - start % chunk :=
        Nat.mod_eq_of_lt (lt_of_le_of_lt (Nat.sub_le _ _) hc32)
      have hleft_pos : 0 < chunk - start % chunk := Nat.sub_pos_of_lt hsw
      have htake_pos : 0 < min ((chunk - start % chunk) % u32Mod) (m + 1) := by
        rw [hleft_eq]; exact lt_min hleft_pos (Nat.succ_pos m)
      rw [partsGo]
      rw [if_neg (Nat.pos_iff_ne_zero.mp htake_pos)]
      have htake_le : min ((chunk - start % chunk) % u32Mod) (m + 1) ≤ m + 1 :=
        min_le_right _ _
      have hrec : m + 1 - min ((chunk - start % chunk) % u32Mod) (m + 1) ≤ n := by
        omega
      simp only [sumNrSectors, List.map_cons, List.sum_cons]
      have := ih ((start + min ((chunk - start % chunk) % u32Mod) (m + 1)) % u64Mod)
        (m + 1 - min ((chunk - start % chunk) % u32Mod) (m + 1))
        ((buf + min ((chunk - start % chunk) % u32Mod) (m + 1)) % u32Mod) hrec
      simp only [sumNrSectors] at this
      rw [this]
      omega
      omega

theorem partsGo_succ (chunk n start m buf : Nat) (hc : 0 < chunk)
    (hc32 : chunk < u32Mod) :
    partsGo chunk (n + 1) start (m + 1) buf =
      { file_num := (start / chunk) % u32Mod,
        start_sector := start % chunk,
        nr_sectors := min (chunk - start % chunk) (m + 1),
        buf_offset := buf } ::
      partsGo chunk n
        ((start + min (chunk - start % chunk) (m + 1)) % u64Mod)
        (m + 1 - min (chunk - start % chunk) (m + 1))
        ((buf + min (chunk - start % chunk) (m + 1)) % u32Mod) := by
  have hsw : start % chunk < chunk := Nat.mod_lt _ hc
  have hleft_eq : (chunk - start % chunk) % u32Mod = chunk - start % chunk :=
    Nat.mod_eq_of_lt (lt_of_le_of_lt (Nat.sub_le _ _) hc32)
  have htake_pos : 0 < min (chunk - start % chunk) (m + 1) :=
    lt_min (Nat.sub_pos_of_lt hsw) (Nat.succ_pos m)
  rw [partsGo, hleft_eq, if_neg (Nat.pos_iff_ne_zero.mp htake_pos)]
  omega

theorem partsGo_buf (chunk : Nat) (hc : 0 < chunk) (hc32 : chunk < u32Mod) :
    ∀ fuel start nr buf, nr ≤ fuel → buf + nr ≤ u32Mod →
      bufChained buf (partsGo chunk fuel start nr buf) := by
  intro fuel
  induction fuel with
  | zero =>
    intro start nr buf h _
    have : nr = 0 := Nat.le_zero.mp h
    subst this
    simp [partsGo, bufChained]
  | succ n ih =>
    intro start nr buf h hbuf
    match nr with
    | 0 => simp [partsGo, bufChained]
    | m + 1 =>
      rw [partsGo_succ chunk n start m buf hc hc32]
      refine ⟨rfl, ?_⟩
      show bufChained (buf + min (chunk - start % chunk) (m + 1))
        (partsGo chunk n
          ((start + min (chunk - start % chunk) (m + 1)) % u64Mod)
          (m + 1 - min (chunk - start % chunk) (m + 1))
          ((buf + min (chunk - start % chunk) (m + 1)) % u32Mod))
      by_cases hfull : min (chunk - start % chunk) (m + 1) = m + 1
      · rw [hfull]
        simp only [Nat.sub_self]
        rw [partsGo_nil_of_zero]
        trivial
      · have htake_le : min (chunk - start % chunk) (m + 1) ≤ m + 1 :=
          min_le_right _ _
        have htake_pos : 0 < min (chunk - start % chunk) (m + 1) :=
          lt_min (Nat.sub_pos_of_lt (Nat.mod_lt _ hc)) (Nat.succ_pos m)
        have hlt : buf + min (chunk - start % chunk) (m + 1) < u32Mod := by
          omega
        rw [Nat.mod_eq_of_lt hlt]
        exact ih _ _ _ (by omega) (by omega)

theorem partsGo_mem (chunk : Nat) (hc : 0 < chunk) (hc32 : chunk < u32Mod) :
    ∀ fuel start nr buf p, p ∈ partsGo chunk fuel start nr buf →
      0 < p.nr_sectors ∧ p.start_sector + p.nr_sectors ≤ chunk := by
  intro fuel
  induction fuel with
  | zero =>
    intro start nr buf p hp
    simp [partsGo] at hp
  | succ n ih =>
    intro start nr buf p hp
    match nr with
    | 0 => simp [partsGo] at hp
    | m + 1 =>
      rw [partsGo_succ chunk n start m buf hc hc32] at hp
      rcases List.mem_cons.mp hp with heq | hmem
      · subst heq
        have hsw : start % chunk < chunk := Nat.mod_lt _ hc
        constructor
        · exact lt_min (Nat.sub_pos_of_lt hsw) (Nat.succ_pos m)
        · have : min (chunk - start % chunk) (m + 1) ≤ chunk - start % chunk :=
            min_le_left _ _
          simp only
          omega
      · exact ih _ _ _ _ hmem

theorem partsGo_position (chunk : Nat) (hc : 0 < chunk)
    (hc32 : chunk < u32Mod) :
    ∀ fuel start nr buf, nr ≤ fuel →
      positionChained chunk start (partsGo chunk fuel start nr buf) := by
  intro fuel
  induction fuel with
  | zero =>
    intro start nr buf h
    have : nr = 0 := Nat.le_zero.mp h
    subst this
    simp [partsGo, positionChained]
  | succ n ih =>
    intro start nr buf h
    match nr with
    | 0 => simp [partsGo, positionChained]
    | m + 1 =>
      rw [partsGo_succ chunk n start m buf hc hc32]
      refine ⟨rfl, rfl, ?_⟩
      have htake_le : min (chunk - start % chunk) (m + 1) ≤ m + 1 :=
        min_le_right _ _
      have htake_pos : 0 < min (chunk - start % chunk) (m + 1) :=
        lt_min (Nat.sub_pos_of_lt (Nat.mod_lt _ hc)) (Nat.succ_pos m)
      exact ih _ _ _ (by omega)

/-- **C1** (amended): for every request and every chunk size in sectors
`0 < chunk < 2^32` (the range in which the source's `as u32` cast of
`left_in_chunk` is exact), the emitted parts' `nr_sectors` sum to the
request's `nr_sectors`; the buffer offsets start at `0` and each
subsequent offset is the previous offset plus the previous part's
`nr_sectors` (strictly ascending since every emitted part is non-empty);
every part lies within one chunk; and each part's `file_num` is the
running absolute sector position (mod `2^64`) divided by the chunk size,
truncated `as u32` (mod `2^32`).  The concrete request
`(start_sector = 65500, nr_sectors = 100)` with a 32 MiB chunk routes to
exactly the two parts of the claim. -/
theorem c1_router_parts (chunk start nr : Nat) (hc : 0 < chunk)
    (hc32 : chunk < u32Mod) (hnr : nr < u32Mod) :
    sumNrSectors (partsList chunk start nr 0) = nr ∧
    bufChained 0 (partsList chunk start nr 0) ∧
    (∀ p ∈ partsList chunk start nr 0,
        0 < p.nr_sectors ∧ p.start_sector + p.nr_sectors ≤ chunk) ∧
    positionChained chunk start (partsList chunk start nr 0) ∧
    parts_for_event 33554432 ⟨1, 65500, 100⟩ =
      [⟨0, 36, 65500, 0⟩, ⟨1, 64, 0, 36⟩] :=
  ⟨partsGo_sum chunk hc hc32 nr start nr 0 le_rfl,
   partsGo_buf chunk hc hc32 nr start nr 0 le_rfl (by omega),
   fun p hp => partsGo_mem chunk hc hc32 nr start nr 0 p hp,
   partsGo_position chunk hc hc32 nr start nr 0 le_rfl,
   by decide⟩

/-- Witness for `c1_router_parts` at the spec's concrete request:
`chunk = 65536` sectors, `start = 65500`, `nr = 100`. -/
theorem c1_router_parts_witness :
    sumNrSectors (partsList 65536 65500 100 0) = 100 ∧
    bufChained 0 (partsList 65536 65500 100 0) ∧
    positionChained 65536 65500 (partsList 65536 65500 100 0) ∧
    parts_for_event 33554432 ⟨1, 65500, 100⟩ =
      [⟨0, 36, 65500, 0⟩, ⟨1, 64, 0, 36⟩] := by
  have h := c1_router_parts 65536 65500 100 (by decide) (by decide)
    (by decide)
  exact ⟨h.1, h.2.1, h.2.2.2.1, h.2.2.2.2⟩

/-- **C1** as stated is false: `file_num` is computed with a truncating
`as u32` cast.  For `chunk_sectors = 512 / 512 = 1` and
`start_sector = 2^32` the single emitted part has `file_num = 0`, while
the claim demands the absolute sector position divided by `chunk_sectors`,
i.e. `2^32`. -/
theorem c1_counterexample :
    parts_for_event 512 ⟨0, 2 ^ 32, 1⟩ = [⟨0, 1, 0, 0⟩] ∧
    (2 ^ 32 : Nat) / (512 / 512) = 2 ^ 32 ∧ (0 : Nat) ≠ 2 ^ 32 := by
  decide

theorem shiftLeft9 (n : Nat) : n <<< 9 = n * 512 := by
  rw [Nat.shiftLeft_eq]

theorem i32OfU32_small (n : Nat) (h : n < 2 ^ 31) : i32OfU32 n = (n : Int) := by
  unfold i32OfU32
  have h32 : n < u32Mod := lt_trans h (by decide)
  rw [Nat.mod_eq_of_lt h32, if_pos h]
  rfl

theorem drainRwPart_short (total current : Nat) (r : Int) (rest : List Int)
    (hr : 0 < r) (hlt : current + r.toNat < total) (htot : total < u32Mod) :
    drainRwPart total current (r :: rest) =
      .consResubmit (current + r.toNat)
        (drainRwPart total (current + r.toNat) rest) := by
  have hcr : (current + r.toNat) % u32Mod = current + r.toNat :=
    Nat.mod_eq_of_lt (by omega)
  simp only [drainRwPart]
  rw [if_pos hr]
  simp only [hcr]
  rw [if_neg (by omega : ¬ current + r.toNat = total)]

theorem drainRwPart_eintr (total current : Nat) (rest : List Int) :
    drainRwPart total current (-EINTR :: rest) =
      .consResubmit current (drainRwPart total current rest) := by
  simp only [drainRwPart]
  rw [if_neg (by decide : ¬ (0 : Int) < -EINTR),
    if_neg (by decide : ¬ (-EINTR < 0 ∧ -EINTR ≠ -EINTR))]

theorem drainRwPart_fail (total current : Nat) (r : Int) (rest : List Int)
    (h1 : r < 0) (h2 : r ≠ -EINTR) :
    drainRwPart total current (r :: rest) = .fail r [] := by
  simp only [drainRwPart]
  rw [if_neg (by omega : ¬ (0 : Int) < r), if_pos ⟨h1, h2⟩]

theorem processRwGo_full :
    ∀ (parts : List Part) (oracles : List (List Int)) (acc : Nat),
      parts.length = oracles.length →
      (∀ q ∈ parts.zip oracles,
          (drainRwPart ((q.1.nr_sectors <<< 9) % u32Mod) 0 q.2).isFull =
            true) →
      acc + sumNrSectors parts * 512 < u32Mod →
      processRwGo parts oracles acc =
        some (i32OfU32 (acc + sumNrSectors parts * 512)) := by
  intro parts
  induction parts with
  | nil =>
    intro oracles acc _ _ _
    simp [processRwGo, sumNrSectors]
  | cons p ps ih =>
    intro oracles acc hlen hfull hbound
    cases oracles with
    | nil => simp at hlen
    | cons o os =>
      have hhead :=
        hfull (p, o) (by simp [List.zip_cons_cons])
      have hsum : sumNrSectors (p :: ps) = p.nr_sectors + sumNrSectors ps := by
        simp [sumNrSectors]
      have hple : p.nr_sectors * 512 + acc + sumNrSectors ps * 512 < u32Mod := by
        rw [hsum] at hbound
        omega
      have hmod1 : (p.nr_sectors <<< 9) % u32Mod = p.nr_sectors * 512 := by
        rw [shiftLeft9]
        exact Nat.mod_eq_of_lt (by omega)
      simp only [processRwGo]
      split
      · -- full
        next rs hdr =>
        have hmod2 : (acc + (p.nr_sectors <<< 9) % u32Mod) % u32Mod =
            acc + p.nr_sectors * 512 := by
          rw [hmod1]
          exact Nat.mod_eq_of_lt (by omega)
        rw [hmod2]
        rw [ih os (acc + p.nr_sectors * 512) (by simpa using hlen)
          (fun q hq => hfull q (by simp [List.zip_cons_cons, hq]))
          (by omega)]
        congr 1
        rw [hsum]
        ring_nf
      · -- fail
        next e rs hdr =>
        rw [hdr] at hhead
        simp [DrainOut.isFull] at hhead
      · -- pending
        next c rs hdr =>
        rw [hdr] at hhead
        simp [DrainOut.isFull] at hhead
/-- **C2**: the read/write path of `Task::process_rw_request`.  For a part
whose byte count fits a `u32` and whose byte range fits a `u64` (the
range every real descriptor satisfies): a positive completion `r` that
leaves the accumulated count `current + r` short of the part's
`nr_sectors << 9` bytes resubmits the same operation with `curr_offset`
advanced to the accumulated count — so the submitted file offset is
`start + accumulated` and the length `total - accumulated`; a `-EINTR`
completion resubmits with the accumulated count unchanged; any other
negative completion is returned immediately as the request's result; and
when every part of a descriptor drains fully, `process_rw_request`
returns `nr_sectors << 9`.  Parts are awaited in emission order (the
model folds over `parts_for_event` in order). -/
theorem c2_rw_request (config_chunk_size op fi : Nat) (p : Part)
    (desc : UblksrvIoDesc)
    (hp : p.nr_sectors * 512 < u32Mod)
    (hbase : p.start_sector * 512 + p.nr_sectors * 512 ≤ u64Max)
    (hcs : 0 < config_chunk_size / 512)
    (hcs32 : config_chunk_size / 512 < u32Mod)
    (hnr : desc.nr_sectors * 512 < 2 ^ 31) :
    (∀ current r rest, 0 < r → current + r.toNat < p.nr_sectors * 512 →
        drainRwPart ((p.nr_sectors <<< 9) % u32Mod) current (r :: rest) =
          .consResubmit (current + r.toNat)
            (drainRwPart ((p.nr_sectors <<< 9) % u32Mod)
              (current + r.toNat) rest) ∧
        (create_rw_sqe_with_offset op fi p desc
            (current + r.toNat)).fileOffset =
          p.start_sector * 512 + (current + r.toNat) ∧
        (create_rw_sqe_with_offset op fi p desc (current + r.toNat)).len =
          p.nr_sectors * 512 - (current + r.toNat)) ∧
    (∀ current rest,
        drainRwPart ((p.nr_sectors <<< 9) % u32Mod) current
            (-EINTR :: rest) =
          .consResubmit current
            (drainRwPart ((p.nr_sectors <<< 9) % u32Mod) current rest)) ∧
    (∀ current r rest, r < 0 → r ≠ -EINTR →
        drainRwPart ((p.nr_sectors <<< 9) % u32Mod) current (r :: rest) =
          .fail r []) ∧
    (∀ oracles : List (List Int),
        (parts_for_event config_chunk_size desc).length = oracles.length →
        (∀ q ∈ (parts_for_event config_chunk_size desc).zip oracles,
            (drainRwPart ((q.1.nr_sectors <<< 9) % u32Mod) 0 q.2).isFull =
              true) →
        process_rw_request config_chunk_size desc oracles =
          some ((desc.nr_sectors * 512 : Nat) : Int)) := by
  have hmod1 : (p.nr_sectors <<< 9) % u32Mod = p.nr_sectors * 512 := by
    rw [shiftLeft9]
    exact Nat.mod_eq_of_lt hp
  have hMax : u64Max + 1 = u64Mod := by decide
  refine ⟨?_, ?_, ?_, ?_⟩
  · intro current r rest hr hlt
    refine ⟨?_, ?_, ?_⟩
    · rw [hmod1]
      exact drainRwPart_short _ _ _ _ hr hlt hp
    · simp only [create_rw_sqe_with_offset, shiftLeft9]
      rw [Nat.mod_eq_of_lt (by omega : p.start_sector * 512 < u64Mod)]
      exact Nat.mod_eq_of_lt (by omega)
    · simp only [create_rw_sqe_with_offset, u32sub, shiftLeft9]
      rw [Nat.mod_eq_of_lt hp, Nat.mod_eq_of_lt hp,
        Nat.mod_eq_of_lt (by omega : current + r.toNat < u32Mod)]
      have hsplit : p.nr_sectors * 512 + (u32Mod - (current + r.toNat)) =
          (p.nr_sectors * 512 - (current + r.toNat)) + u32Mod := by
        omega
      rw [hsplit, Nat.add_mod_right]
      exact Nat.mod_eq_of_lt (by omega)
  · intro current rest
    exact drainRwPart_eintr _ _ _
  · intro current r rest h1 h2
    exact drainRwPart_fail _ _ _ _ h1 h2
  · intro oracles hlen hfull
    unfold process_rw_request
    have hsum : sumNrSectors (parts_for_event config_chunk_size desc) =
        desc.nr_sectors := by
      unfold parts_for_event partsList
      exact partsGo_sum _ hcs hcs32 _ _ _ 0 le_rfl
    have h31 : (2 : Nat) ^ 31 < u32Mod := by decide
    rw [processRwGo_full _ _ 0 hlen hfull (by rw [hsum]; omega)]
    rw [hsum]
    rw [Nat.zero_add]
    exact congrArg some (i32OfU32_small _ hnr)

/-- Witness for `c2_rw_request`: a 4 KiB write (`nr_sectors = 8`) to
sector 0 with a 32 MiB chunk; the driver first completes half
(2048 bytes), the resubmission carries offset 2048 and length 2048, and
the second completion finishes the request, which reports `8 << 9 = 4096`
bytes. -/
theorem c2_rw_request_witness :
    (drainRwPart ((Part.nr_sectors ⟨0, 8, 0, 0⟩ <<< 9) % u32Mod) 0
        ((2048 : Int) :: [2048]) =
      .consResubmit 2048
        (drainRwPart ((Part.nr_sectors ⟨0, 8, 0, 0⟩ <<< 9) % u32Mod) 2048
          [2048]) ∧
      (create_rw_sqe_with_offset 1 1 ⟨0, 8, 0, 0⟩ ⟨1, 0, 8⟩
          2048).fileOffset = 0 * 512 + 2048 ∧
      (create_rw_sqe_with_offset 1 1 ⟨0, 8, 0, 0⟩ ⟨1, 0, 8⟩ 2048).len =
        8 * 512 - 2048) ∧
    drainRwPart ((Part.nr_sectors ⟨0, 8, 0, 0⟩ <<< 9) % u32Mod) 2048
        (-EINTR :: []) =
      .consResubmit 2048
        (drainRwPart ((Part.nr_sectors ⟨0, 8, 0, 0⟩ <<< 9) % u32Mod) 2048
          []) ∧
    drainRwPart ((Part.nr_sectors ⟨0, 8, 0, 0⟩ <<< 9) % u32Mod) 2048
        ((-5 : Int) :: []) = .fail (-5) [] ∧
    process_rw_request 33554432 ⟨1, 0, 8⟩ [[2048, 2048]] =
      some ((8 * 512 : Nat) : Int) := by
  have h := c2_rw_request 33554432 1 1 ⟨0, 8, 0, 0⟩ ⟨1, 0, 8⟩
    (by decide) (by decide) (by decide) (by decide) (by decide)
  refine ⟨?_, h.2.1 2048 [], h.2.2.1 2048 (-5) [] (by decide) (by decide),
    h.2.2.2 [[2048, 2048]] (by decide) ?_⟩
  · have h1 := h.1 0 2048 [2048] (by decide) (by decide)
    simpa using h1
  · intro q hq
    have hparts : parts_for_event 33554432 ⟨1, 0, 8⟩ = [⟨0, 8, 0, 0⟩] := by
      decide
    rw [hparts] at hq
    rw [show ([(⟨0, 8, 0, 0⟩ : Part)].zip [[(2048 : Int), 2048]]) =
      [((⟨0, 8, 0, 0⟩ : Part), [(2048 : Int), 2048])] from rfl] at hq
    rw [List.mem_singleton] at hq
    rw [hq]
    decide

/-- **C3** fails on the code: `create_write_zeroes_sqe` tests
`desc.flags() & UBLK_IO_F_NOUNMAP`, i.e. the NOUNMAP constant against the
already right-shifted flags, while the claim (and the FUA check two
functions above) reads the bit from `op_flags` itself.  For a
WRITE_ZEROES descriptor whose `op_flags` carry the NOUNMAP bit, the
emitted fallocate mode is `KEEP_SIZE | PUNCH_HOLE`, not the claimed
`KEEP_SIZE | ZERO_RANGE`; the length/offset clauses of the claim hold. -/
theorem c3_write_zeroes_mode :
    (UBLK_IO_OP_WRITE_ZEROES + UBLK_IO_F_NOUNMAP) % 256 =
      UBLK_IO_OP_WRITE_ZEROES ∧
    (UBLK_IO_OP_WRITE_ZEROES + UBLK_IO_F_NOUNMAP) &&& UBLK_IO_F_NOUNMAP ≠
      0 ∧
    (create_write_zeroes_sqe 1 ⟨0, 8, 100, 0⟩
        ⟨UBLK_IO_OP_WRITE_ZEROES + UBLK_IO_F_NOUNMAP, 100, 8⟩).mode =
      (FALLOC_FL_KEEP_SIZE ||| FALLOC_FL_PUNCH_HOLE) ∧
    (FALLOC_FL_KEEP_SIZE ||| FALLOC_FL_PUNCH_HOLE) ≠
      (FALLOC_FL_KEEP_SIZE ||| FALLOC_FL_ZERO_RANGE) ∧
    (create_write_zeroes_sqe 1 ⟨0, 8, 100, 0⟩
        ⟨UBLK_IO_OP_WRITE_ZEROES + UBLK_IO_F_NOUNMAP, 100, 8⟩).len =
      8 * 512 ∧
    (create_write_zeroes_sqe 1 ⟨0, 8, 100, 0⟩
        ⟨UBLK_IO_OP_WRITE_ZEROES + UBLK_IO_F_NOUNMAP, 100, 8⟩).fileOffset =
      100 * 512 := by
  decide

/-- **C4** fails on the code: `Config::to_string` never writes a
`threads` line (src/config.rs:192-203), although `read_config_file`
accepts one, so a saved-and-reloaded config loses its `threads` value
while every other field survives the round trip. -/
theorem c4_roundtrip_drops_threads :
    read_config_file (configToString
        ⟨1, some 0, 268435456, 33554432, some 4, some 1000, some 1000,
          some true⟩) =
      some ⟨1, some 0, 268435456, 33554432, none, some 1000, some 1000,
        some true⟩ ∧
    (some 4 : Option Nat) ≠ none := by
  decide

theorem next_multiple_of_mod (a m : Nat) (hm : 0 < m) :
    next_multiple_of a m % m = 0 := by
  unfold next_multiple_of
  split
  · next h => exact h
  · next h =>
    have hd := Nat.div_add_mod a m
    have hlt : a % m < m := Nat.mod_lt _ hm
    have he : a + (m - a % m) = m * (a / m) + m := by omega
    rw [he, ← Nat.mul_succ]
    exact Nat.mul_mod_right m (a / m + 1)

theorem le_next_multiple_of (a m : Nat) : a ≤ next_multiple_of a m := by
  unfold next_multiple_of
  split <;> omega

/-- **C5**: the sizing logic of `parse_init`.  Any invocation with
`size ≥ 256 MiB` and `chunk_size ≥ 32 MiB` whose round-ups fit a `u64`
succeeds, and the persisted pair satisfies `chunk_size_out % 4096 = 0`,
`size_out % chunk_size_out = 0`, `size_out ≥ size_in` and
`chunk_size_out ≥ chunk_size_in`; `--size 256M --chunk-size 32M` yields
exactly `(268435456, 33554432)`; and any invocation below either minimum
is rejected. -/
theorem c5_init_rounding (size chunk : Nat)
    (hs : 256 * (1024 * 1024) ≤ size)
    (hc : 32 * (1024 * 1024) ≤ chunk)
    (h1 : next_multiple_of chunk 4096 ≤ u64Max)
    (h2 : next_multiple_of size (next_multiple_of chunk 4096) ≤ u64Max) :
    (parse_init_sizes size chunk =
        some (next_multiple_of size (next_multiple_of chunk 4096),
          next_multiple_of chunk 4096) ∧
      next_multiple_of chunk 4096 % 4096 = 0 ∧
      next_multiple_of size (next_multiple_of chunk 4096) %
          next_multiple_of chunk 4096 = 0 ∧
      size ≤ next_multiple_of size (next_multiple_of chunk 4096) ∧
      chunk ≤ next_multiple_of chunk 4096) ∧
    parse_init_sizes 268435456 33554432 = some (268435456, 33554432) ∧
    (∀ s c, s < 256 * (1024 * 1024) → parse_init_sizes s c = none) ∧
    (∀ s c, 256 * (1024 * 1024) ≤ s → c < 32 * (1024 * 1024) →
        parse_init_sizes s c = none) := by
  refine ⟨⟨?_, ?_, ?_, ?_, ?_⟩, by decide, ?_, ?_⟩
  · have hckpos : 0 < next_multiple_of chunk 4096 :=
      lt_of_lt_of_le (by omega) (le_next_multiple_of chunk 4096)
    have e1 : checked_next_multiple_of chunk 4096 =
        some (next_multiple_of chunk 4096) := by
      unfold checked_next_multiple_of
      rw [if_neg (by decide : ¬ (4096 = 0)), if_pos h1]
    have e2 : checked_next_multiple_of size (next_multiple_of chunk 4096) =
        some (next_multiple_of size (next_multiple_of chunk 4096)) := by
      unfold checked_next_multiple_of
      rw [if_neg (by omega), if_pos h2]
    unfold parse_init_sizes
    rw [if_neg (by omega), if_neg (by omega)]
    simp only [e1, e2]
  · exact next_multiple_of_mod chunk 4096 (by decide)
  · exact next_multiple_of_mod size _
      (lt_of_lt_of_le (by omega) (le_next_multiple_of chunk 4096))
  · exact le_next_multiple_of size _
  · exact le_next_multiple_of chunk 4096
  · intro s c h
    unfold parse_init_sizes
    rw [if_pos h]
  · intro s c hge hlt
    unfold parse_init_sizes
    rw [if_neg (by omega), if_pos hlt]

/-- Witness for `c5_init_rounding`: `--size 256M --chunk-size 32M`
round-trips unchanged, and each minimum is enforced. -/
theorem c5_init_rounding_witness :
    parse_init_sizes 268435456 33554432 = some (268435456, 33554432) ∧
    parse_init_sizes 268435455 33554432 = none ∧
    parse_init_sizes 268435456 33554431 = none := by
  have h := c5_init_rounding 268435456 33554432 (by decide) (by decide)
    (by decide) (by decide)
  exact ⟨h.2.1, h.2.2.1 268435455 33554432 (by decide),
    h.2.2.2 268435456 33554431 (by decide) (by decide)⟩

/-- **C6**: `Config::expand_size_by_bytes`.  With `chunk_size > 0` and no
`u64` overflow the call succeeds with the round-up of `size + bytes` to
the next multiple of `chunk_size`, so `new_size ≥ old_size + bytes`,
`new_size % chunk_size = 0`, and `new_size > old_size` whenever
`bytes > 0`; expanding `size = 268435456` (`chunk_size = 33554432`) by 1
byte yields `301989888`; and on overflow (of the addition or of the
round-up) the call returns `none` — `commands/expand.rs` then returns
before `config.save()`, so no size is persisted. -/
theorem c6_expand (size chunk bytes : Nat) (hc : 0 < chunk)
    (hov : size + bytes ≤ u64Max)
    (hov2 : next_multiple_of (size + bytes) chunk ≤ u64Max) :
    expand_size_by_bytes size chunk bytes =
      some (next_multiple_of (size + bytes) chunk) ∧
    size + bytes ≤ next_multiple_of (size + bytes) chunk ∧
    next_multiple_of (size + bytes) chunk % chunk = 0 ∧
    (0 < bytes → size < next_multiple_of (size + bytes) chunk) ∧
    expand_size_by_bytes 268435456 33554432 1 = some 301989888 ∧
    (∀ s c b, u64Max < s + b → expand_size_by_bytes s c b = none) ∧
    (∀ s c b, s + b ≤ u64Max → u64Max < next_multiple_of (s + b) c →
        expand_size_by_bytes s c b = none) := by
  refine ⟨?_, le_next_multiple_of _ _, next_multiple_of_mod _ _ hc, ?_,
    by decide, ?_, ?_⟩
  · unfold expand_size_by_bytes checked_next_multiple_of
    rw [if_pos hov, if_neg (by omega), if_pos hov2]
  · intro hb
    have := le_next_multiple_of (size + bytes) chunk
    omega
  · intro s c b h
    unfold expand_size_by_bytes
    rw [if_neg (by omega)]
  · intro s c b hle hgt
    unfold expand_size_by_bytes checked_next_multiple_of
    rw [if_pos hle]
    by_cases hc0 : c = 0
    · rw [if_pos hc0]
    · rw [if_neg hc0, if_neg (by omega)]

/-- Witness for `c6_expand`: the spec's literal expansion plus an
overflowing request that is rejected. -/
theorem c6_expand_witness :
    expand_size_by_bytes 268435456 33554432 1 = some 301989888 ∧
    expand_size_by_bytes 1 1 u64Max = none := by
  have h := c6_expand 268435456 33554432 1 (by decide) (by decide)
    (by decide)
  exact ⟨h.2.2.2.2.1, h.2.2.2.2.2.1 1 1 u64Max (by decide)⟩

theorem taskRunGo_no_abort :
    ∀ (l : List Int) (n : Nat), UBLK_IO_RES_ABORT ∉ l →
      taskRunGo l n = .running (n + l.length) := by
  intro l
  induction l with
  | nil => intro n _; simp [taskRunGo]
  | cons c rest ih =>
    intro n hmem
    have hc : ¬ c = UBLK_IO_RES_ABORT := fun h =>
      hmem (h ▸ List.mem_cons_self c rest)
    simp only [taskRunGo]
    rw [if_neg hc, ih (n + 1) fun h => hmem (List.mem_cons_of_mem c h)]
    simp only [List.length_cons]
    congr 1
    omega

theorem taskRunGo_first_abort :
    ∀ (pre post : List Int) (n : Nat), UBLK_IO_RES_ABORT ∉ pre →
      taskRunGo (pre ++ UBLK_IO_RES_ABORT :: post) n =
        .cleanShutdown (n + pre.length + 1) := by
  intro pre
  induction pre with
  | nil =>
    intro post n _
    simp [taskRunGo]
  | cons c rest ih =>
    intro post n hmem
    have hc : ¬ c = UBLK_IO_RES_ABORT := fun h =>
      hmem (h ▸ List.mem_cons_self c rest)
    simp only [List.cons_append, taskRunGo]
    rw [if_neg hc]
    simp only [List.append_eq]
    rw [ih post (n + 1) fun h => hmem (List.mem_cons_of_mem c h)]
    simp only [List.length_cons]
    congr 1
    omega

/-- **C7**: `Task::run` control flow.  An initial FETCH completion equal
to `ABORT` (`-ENODEV`) ends the task cleanly before any request is
processed; any other negative initial completion is a task error; once in
the loop, the first `ABORT` COMMIT_AND_FETCH completion ends the task
cleanly — negative non-`ABORT` commit completions before it (which are
only logged) do not stop the loop, and a stream with no `ABORT` keeps the
task running through every delivered completion. -/
theorem c7_task_run :
    (∀ commits, task_run UBLK_IO_RES_ABORT commits = .cleanBeforeWork) ∧
    (∀ e commits, e < 0 → e ≠ UBLK_IO_RES_ABORT →
        task_run e commits = .initError e) ∧
    (∀ (init : Int) pre post, 0 ≤ init → UBLK_IO_RES_ABORT ∉ pre →
        task_run init (pre ++ UBLK_IO_RES_ABORT :: post) =
          .cleanShutdown (pre.length + 1)) ∧
    (∀ (init : Int) commits, 0 ≤ init → UBLK_IO_RES_ABORT ∉ commits →
        task_run init commits = .running commits.length) := by
  refine ⟨?_, ?_, ?_, ?_⟩
  · intro commits
    unfold task_run
    rw [if_pos (by decide : UBLK_IO_RES_ABORT < 0), if_pos rfl]
  · intro e commits h1 h2
    unfold task_run
    rw [if_pos h1, if_neg h2]
  · intro init pre post h1 h2
    unfold task_run
    rw [if_neg (by omega)]
    simpa using taskRunGo_first_abort pre post 0 h2
  · intro init commits h1 h2
    unfold task_run
    rw [if_neg (by omega)]
    simpa using taskRunGo_no_abort commits 0 h2

/-- Witness for `c7_task_run`: abort on the initial fetch; `-5` on the
initial fetch; a logged `-5` commit completion followed by `ABORT`; a
lone `-5` commit completion that leaves the task running. -/
theorem c7_task_run_witness :
    task_run UBLK_IO_RES_ABORT [] = .cleanBeforeWork ∧
    task_run (-5) [] = .initError (-5) ∧
    task_run 0 [-5, UBLK_IO_RES_ABORT] = .cleanShutdown 2 ∧
    task_run 0 [-5] = .running 1 := by
  have h := c7_task_run
  refine ⟨h.1 [], h.2.1 (-5) [] (by decide) (by decide), ?_,
    h.2.2.2 0 [-5] (by decide) (by decide)⟩
  simpa using h.2.2.1 0 [-5] [] (by decide) (by decide)

/-- **C8**: a descriptor whose op code is none of READ, WRITE, FLUSH,
WRITE_ZEROES makes `process_request` fail (`bail!`), the task commits
`-EIO` for it, `-EIO` is not a success value, and a non-`ABORT`
COMMIT_AND_FETCH completion leaves the loop running on the next fetched
descriptor. -/
theorem c8_unknown_op (config_chunk_size : Nat) (desc : UblksrvIoDesc)
    (oracles : List (List Int)) (fidx : Nat → Nat)
    (h0 : desc.op ≠ UBLK_IO_OP_READ) (h1 : desc.op ≠ UBLK_IO_OP_WRITE)
    (h2 : desc.op ≠ UBLK_IO_OP_FLUSH)
    (h3 : desc.op ≠ UBLK_IO_OP_WRITE_ZEROES) :
    process_request config_chunk_size desc oracles fidx = .error () ∧
    commit_value (process_request config_chunk_size desc oracles fidx) =
      some (-EIO_errno) ∧
    (-EIO_errno : Int) < 0 ∧
    (∀ c, c ≠ UBLK_IO_RES_ABORT → taskRunGo [c] 0 = .running 1) := by
  have hp : process_request config_chunk_size desc oracles fidx =
      .error () := by
    unfold process_request
    rw [if_neg (not_or.mpr ⟨h0, h1⟩), if_neg h2, if_neg h3]
  refine ⟨hp, by rw [hp]; rfl, by decide, ?_⟩
  intro c hc
  simp only [taskRunGo]
  rw [if_neg hc]

/-- Witness for `c8_unknown_op`: op 3 (`DISCARD`, unsupported). -/
theorem c8_unknown_op_witness :
    process_request 33554432 ⟨3, 0, 8⟩ [] (fun _ => 0) = .error () ∧
    commit_value (process_request 33554432 ⟨3, 0, 8⟩ [] (fun _ => 0)) =
      some (-EIO_errno) ∧
    (-EIO_errno : Int) < 0 ∧
    taskRunGo [-EIO_errno] 0 = .running 1 := by
  have h := c8_unknown_op 33554432 ⟨3, 0, 8⟩ [] (fun _ => 0)
    (by decide) (by decide) (by decide) (by decide)
  exact ⟨h.1, h.2.1, h.2.2.1, h.2.2.2 (-EIO_errno) (by decide)⟩

theorem lookupChunk_none_not_mem :
    ∀ (t : List (Nat × Nat)) (c : Nat), lookupChunk t c = none →
      c ∉ t.map Prod.fst := by
  intro t
  induction t with
  | nil => intro c _ h; simp at h
  | cons kv rest ih =>
    intro c h
    obtain ⟨k, v⟩ := kv
    simp only [lookupChunk] at h
    by_cases hk : k = c
    · rw [if_pos hk] at h
      exact absurd h (by simp)
    · rw [if_neg hk] at h
      simp only [List.map_cons, List.mem_cons]
      rintro (hck | hmem)
      · exact hk hck.symm
      · exact ih c h hmem

theorem open_or_create_cached_wf (t : List (Nat × Nat)) (c : Nat)
    (h1 : slotsDense t) (h2 : keysNodup t) :
    slotsDense (open_or_create_cached t c).2 ∧
      keysNodup (open_or_create_cached t c).2 := by
  unfold open_or_create_cached
  cases hl : lookupChunk t c with
  | some idx => exact ⟨h1, h2⟩
  | none =>
    constructor
    · unfold slotsDense at h1 ⊢
      simp only [List.map_append, List.length_append, List.map_cons,
        List.map_nil, List.length_cons, List.length_nil]
      rw [h1, List.range'_concat]
      simp
      omega
    · unfold keysNodup at h2 ⊢
      simp only [List.map_append, List.map_cons, List.map_nil]
      have hnm := lookupChunk_none_not_mem t c hl
      simp [List.nodup_append, h2, hnm]

theorem foldOpens_wf :
    ∀ (calls : List Nat) (t : List (Nat × Nat)),
      slotsDense t → keysNodup t →
      slotsDense
          (calls.foldl (fun t c => (open_or_create_cached t c).2) t) ∧
        keysNodup
          (calls.foldl (fun t c => (open_or_create_cached t c).2) t) := by
  intro calls
  induction calls with
  | nil => intro t h1 h2; exact ⟨h1, h2⟩
  | cons c rest ih =>
    intro t h1 h2
    simp only [List.foldl_cons]
    obtain ⟨h1', h2'⟩ := open_or_create_cached_wf t c h1 h2
    exact ih _ h1' h2'

/-- **C9**: after any sequence of `open_or_create_cached` calls starting
from the empty per-worker table, the file-index table maps distinct chunk
indices to distinct slots, the slot column is exactly `[1, …, n]` (dense,
starting at 1), slot 0 is never assigned, and a call with an
already-present chunk index returns the cached slot with the table (and
hence the kernel's registered-file table) unchanged. -/
theorem c9_file_index_table (calls : List Nat) :
    slotsDense (applyOpens calls) ∧
    keysNodup (applyOpens calls) ∧
    0 ∉ (applyOpens calls).map Prod.snd ∧
    (∀ c idx, lookupChunk (applyOpens calls) c = some idx →
        open_or_create_cached (applyOpens calls) c =
          (idx, applyOpens calls)) := by
  obtain ⟨h1, h2⟩ := foldOpens_wf calls [] (by simp [slotsDense])
    (by simp [keysNodup])
  refine ⟨h1, h2, ?_, ?_⟩
  · unfold slotsDense at h1
    unfold applyOpens
    rw [h1]
    intro h0
    have := List.mem_range'_1.mp h0
    omega
  · intro c idx h
    unfold open_or_create_cached
    simp only [h]

/-- Witness for `c9_file_index_table`: chunks 5, 7 then 5 again — the
table is `[(5, 1), (7, 2)]` and the repeated call returns slot 1 without
change. -/
theorem c9_file_index_table_witness :
    slotsDense (applyOpens [5, 7, 5]) ∧
    keysNodup (applyOpens [5, 7, 5]) ∧
    0 ∉ (applyOpens [5, 7, 5]).map Prod.snd ∧
    open_or_create_cached (applyOpens [5, 7, 5]) 5 =
      (1, applyOpens [5, 7, 5]) := by
  have h := c9_file_index_table [5, 7, 5]
  exact ⟨h.1, h.2.1, h.2.2.1, h.2.2.2 5 1 (by decide)⟩

/-- **C10**: a FLUSH or WRITE_ZEROES descriptor with `nr_sectors = 0`
produces no parts, so the handlers open no chunk file, submit no fsync or
fallocate, and return `0`, which is the value the task commits. -/
theorem c10_zero_length (config_chunk_size : Nat) (desc : UblksrvIoDesc)
    (fidx : Nat → Nat) (h : desc.nr_sectors = 0) :
    parts_for_event config_chunk_size desc = [] ∧
    process_flush_request config_chunk_size desc [] = ([], some 0) ∧
    process_write_zeroes_request config_chunk_size desc [] fidx =
      ([], [], some 0) ∧
    (desc.op = UBLK_IO_OP_FLUSH →
        commit_value (process_request config_chunk_size desc [] fidx) =
          some 0) ∧
    (desc.op = UBLK_IO_OP_WRITE_ZEROES →
        commit_value (process_request config_chunk_size desc [] fidx) =
          some 0) := by
  have hparts : parts_for_event config_chunk_size desc = [] := by
    unfold parts_for_event partsList
    rw [h]
    rfl
  have hflush : process_flush_request config_chunk_size desc [] =
      ([], some 0) := by
    unfold process_flush_request
    rw [hparts]
    rfl
  have hzero : process_write_zeroes_request config_chunk_size desc []
      fidx = ([], [], some 0) := by
    unfold process_write_zeroes_request
    rw [hparts]
    rfl
  refine ⟨hparts, hflush, hzero, ?_, ?_⟩
  · intro hop
    unfold process_request
    rw [if_neg (by rw [hop]; decide), if_pos hop]
    simp only [commit_value, hflush]
  · intro hop
    unfold process_request
    rw [if_neg (by rw [hop]; decide), if_neg (by rw [hop]; decide),
      if_pos hop]
    simp only [commit_value, hzero]

/-- Witness for `c10_zero_length`: a zero-length FLUSH descriptor. -/
theorem c10_zero_length_witness :
    parts_for_event 33554432 ⟨2, 0, 0⟩ = [] ∧
    process_flush_request 33554432 ⟨2, 0, 0⟩ [] = ([], some 0) ∧
    process_write_zeroes_request 33554432 ⟨2, 0, 0⟩ [] (fun _ => 0) =
      ([], [], some 0) ∧
    commit_value (process_request 33554432 ⟨2, 0, 0⟩ [] (fun _ => 0)) =
      some 0 := by
  have h := c10_zero_length 33554432 ⟨2, 0, 0⟩ (fun _ => 0) (by decide)
  exact ⟨h.1, h.2.1, h.2.2.1, h.2.2.2.1 (by decide)⟩

end Blkchnkr
